import Mathlib

/-!
Verification of the tomopy preprocessing / center-optimization core.

The embedding follows the two source files:
  * `tomopy/algorithms/preprocess/normalize.py` — the shared-array
    normalization worker `normalize`;
  * `tomopy/algorithms/recon/optimize_center.py` — the entropy-guided
    rotation-center locator `optimize_center` and its cost function.

Numeric arrays are embedded as total functions into `ℚ` (exact rational
arithmetic standing in for the float arrays); 3-D volumes are indexed
[projection, row, column].  External collaborators (the Gridrec
reconstructor, the scipy Gaussian filter and the Nelder-Mead minimizer)
are black boxes, passed as function parameters, exactly as the spec
treats them.
-/

namespace TomopySpec

/-- A 2-D image: (row, column) ↦ pixel value. -/
abbrev Img : Type := Nat → Nat → ℚ

/-- A 3-D projection volume: (projection, row, column) ↦ pixel value. -/
abbrev Vol : Type := Nat → Nat → Nat → ℚ

/-! ## normalize.py

The worker body is

    for m in ind:
        data[m, :, :] = np.divide(data[m, :, :]-data_dark,
                                  data_white-data_dark)
    if cutoff is not None:
        data[data > cutoff] = cutoff

`updateProj` is one iteration of the loop (the in-place write of
projection `m`); `divPhase` is the whole loop; `normalize` adds the
final clamp, which the source applies to the WHOLE shared array, not
only to the projections of the worker's partition. -/

/-- One loop iteration: overwrite projection `m` with
`(data[m] - dark) / (white - dark)`. -/
def updateProj (white dark : Img) (d : Vol) (m : Nat) : Vol :=
  fun m2 i j => if m2 = m then (d m2 i j - dark i j) / (white i j - dark i j) else d m2 i j

/-- The `for m in ind` loop of `normalize`. -/
def divPhase (ind : List Nat) (data : Vol) (white dark : Img) : Vol :=
  ind.foldl (updateProj white dark) data

/-- The worker `normalize(args)` of `normalize.py`: divide each assigned
projection by the calibration frames, then (if `cutoff` is set) clamp
every value of the whole shared array down to `cutoff`. -/
def normalize (ind : List Nat) (data : Vol) (white dark : Img) (cutoff : Option ℚ) : Vol :=
  match cutoff with
  | none => divPhase ind data white dark
  | some c => fun m i j =>
      if divPhase ind data white dark m i j > c then c else divPhase ind data white dark m i j

/-- Running the worker once per partition, sequentially, on the shared
volume. -/
def normalizeSeq (parts : List (List Nat)) (data : Vol) (white dark : Img)
    (cutoff : Option ℚ) : Vol :=
  parts.foldl (fun d p => normalize p d white dark cutoff) data

/-! ### Characterization of the division loop -/

lemma divPhase_not_mem {ind : List Nat} {m : Nat} (hm : m ∉ ind)
    (data : Vol) (white dark : Img) (i j : Nat) :
    divPhase ind data white dark m i j = data m i j := by
  induction ind generalizing data with
  | nil => rfl
  | cons a l ih =>
    have hma : m ≠ a := fun h => hm (h ▸ List.mem_cons_self a l)
    have hml : m ∉ l := fun h => hm (List.mem_cons_of_mem a h)
    show divPhase l (updateProj white dark data a) white dark m i j = data m i j
    rw [ih hml]
    simp [updateProj, hma]

lemma divPhase_mem {ind : List Nat} {m : Nat} (hnd : ind.Nodup) (hm : m ∈ ind)
    (data : Vol) (white dark : Img) (i j : Nat) :
    divPhase ind data white dark m i j
      = (data m i j - dark i j) / (white i j - dark i j) := by
  induction ind generalizing data with
  | nil => exact absurd hm (List.not_mem_nil m)
  | cons a l ih =>
    have hal : a ∉ l := (List.nodup_cons.mp hnd).1
    have hln : l.Nodup := (List.nodup_cons.mp hnd).2
    show divPhase l (updateProj white dark data a) white dark m i j = _
    rcases List.mem_cons.mp hm with hma | hml
    · subst hma
      rw [divPhase_not_mem hal]
      simp [updateProj]
    · have hma : m ≠ a := fun h => hal (h ▸ hml)
      rw [ih hln hml]
      simp [updateProj, hma]

/-! ### Concrete instances used by witnesses and counterexamples -/

/-- Two-projection example volume: projection 0 is constantly 1,
projection 1 is constantly 5. -/
def exData : Vol := fun m _ _ => if m = 0 then 1 else 5

/-- Example white field, constantly 2. -/
def exWhite : Img := fun _ _ => 2

/-- Example dark field, constantly 0. -/
def exDark : Img := fun _ _ => 0

/-- C1: for a projection index `m` of the worker's partition the output is
the elementwise `(data[m] - dark) / (white - dark)`; with a cutoff the
output is the one-sided clamp of that quotient: it equals the quotient
clamped at `cutoff`, every value of the whole result is `≤ cutoff`, and a
value that is already `≤ cutoff` after the division phase is unchanged. -/
theorem normalize_partition_semantics (ind : List Nat) (data : Vol) (white dark : Img)
    (m : Nat) (hnd : ind.Nodup) (hm : m ∈ ind) (i j : Nat) :
    (normalize ind data white dark none m i j
        = (data m i j - dark i j) / (white i j - dark i j))
    ∧ (∀ c : ℚ,
        (normalize ind data white dark (some c) m i j
          = if (data m i j - dark i j) / (white i j - dark i j) > c then c
            else (data m i j - dark i j) / (white i j - dark i j))
        ∧ (∀ m2 i2 j2 : Nat, normalize ind data white dark (some c) m2 i2 j2 ≤ c)
        ∧ (∀ m2 i2 j2 : Nat, divPhase ind data white dark m2 i2 j2 ≤ c →
            normalize ind data white dark (some c) m2 i2 j2
              = divPhase ind data white dark m2 i2 j2)) := by
  refine ⟨divPhase_mem hnd hm data white dark i j, fun c => ⟨?_, ?_, ?_⟩⟩
  · show (if divPhase ind data white dark m i j > c then c
        else divPhase ind data white dark m i j) = _
    rw [divPhase_mem hnd hm data white dark i j]
  · intro m2 i2 j2
    show (if divPhase ind data white dark m2 i2 j2 > c then c
        else divPhase ind data white dark m2 i2 j2) ≤ c
    by_cases h : divPhase ind data white dark m2 i2 j2 > c
    · simp [h]
    · simp only [if_neg h]
      exact le_of_not_lt h
  · intro m2 i2 j2 h
    show (if divPhase ind data white dark m2 i2 j2 > c then c
        else divPhase ind data white dark m2 i2 j2) = _
    rw [if_neg (not_lt.mpr h)]

/-- Witness for C1 at a concrete input: partition `[0]`, the example
volume and calibration frames, cutoff `2`. -/
theorem normalize_partition_semantics_witness :
    ([0] : List Nat).Nodup ∧ (0 ∈ ([0] : List Nat))
    ∧ normalize [0] exData exWhite exDark none 0 0 0 = 1/2
    ∧ normalize [0] exData exWhite exDark (some 2) 0 0 0 = 1/2 := by
  have h := normalize_partition_semantics [0] exData exWhite exDark 0
    (by decide) (by decide) 0 0
  refine ⟨by decide, by decide, ?_, ?_⟩
  · rw [h.1]; norm_num [exData, exWhite, exDark]
  · rw [(h.2 2).1]; norm_num [exData, exWhite, exDark]

/-- Counterexample to C2: with a cutoff, the final clamp of `normalize`
writes outside the worker's partition.  With partition `[0]` and cutoff
`2`, projection `1` (not in the partition) is changed from `5` to `2`. -/
theorem normalize_frame_effect_counterexample :
    (1 : Nat) ∉ ([0] : List Nat)
    ∧ normalize [0] exData exWhite exDark (some 2) 1 0 0 = 2
    ∧ exData 1 0 0 = 5
    ∧ normalize [0] exData exWhite exDark (some 2) 1 0 0 ≠ exData 1 0 0 := by
  have hdiv : divPhase [0] exData exWhite exDark 1 0 0 = 5 := by
    have := @divPhase_not_mem [0] 1 (by decide) exData exWhite exDark 0 0
    rw [this]; norm_num [exData]
  refine ⟨by decide, ?_, by norm_num [exData], ?_⟩
  · show (if divPhase [0] exData exWhite exDark 1 0 0 > 2 then (2:ℚ)
        else divPhase [0] exData exWhite exDark 1 0 0) = 2
    rw [hdiv]; norm_num
  · show (if divPhase [0] exData exWhite exDark 1 0 0 > 2 then (2:ℚ)
        else divPhase [0] exData exWhite exDark 1 0 0) ≠ exData 1 0 0
    rw [hdiv]; norm_num [exData]

/-- C2 (amended): a projection index `m` outside the worker's partition is
untouched when `cutoff` is `None`; when a cutoff `c` is set, the final
clamp still reaches it, replacing `data[m]` by `min(data[m], c)`
pointwise (so it is changed exactly where it exceeded the cutoff). -/
theorem normalize_frame_effect (ind : List Nat) (data : Vol) (white dark : Img)
    (m : Nat) (hm : m ∉ ind) (i j : Nat) :
    normalize ind data white dark none m i j = data m i j
    ∧ ∀ c : ℚ, normalize ind data white dark (some c) m i j
        = if data m i j > c then c else data m i j := by
  constructor
  · exact divPhase_not_mem hm data white dark i j
  · intro c
    show (if divPhase ind data white dark m i j > c then c
        else divPhase ind data white dark m i j) = _
    rw [divPhase_not_mem hm data white dark i j]

/-- Witness for the amended C2 at a concrete input. -/
theorem normalize_frame_effect_witness :
    (1 : Nat) ∉ ([0] : List Nat)
    ∧ normalize [0] exData exWhite exDark none 1 0 0 = 5
    ∧ normalize [0] exData exWhite exDark (some 2) 1 0 0 = 2 := by
  have h := normalize_frame_effect [0] exData exWhite exDark 1 (by decide) 0 0
  refine ⟨by decide, ?_, ?_⟩
  · rw [h.1]; norm_num [exData]
  · rw [h.2 2]; norm_num [exData]

/-- Counterexample to C3: with cutoff `2` and disjoint partitions `[0]`
and `[1]` covering `[0, 2)`, running the worker once per partition gives
projection 1 the value `1` (its raw value `5` was clamped to `2` by the
first worker's global clamp before the second worker divided it), while
one run over the whole range gives `2`. -/
theorem normalizeSeq_counterexample :
    ([[0], [1]] : List (List Nat)).flatten.Perm (List.range 2)
    ∧ normalizeSeq [[0], [1]] exData exWhite exDark (some 2) 1 0 0 = 1
    ∧ normalize [0, 1] exData exWhite exDark (some 2) 1 0 0 = 2
    ∧ normalizeSeq [[0], [1]] exData exWhite exDark (some 2) 1 0 0
        ≠ normalize [0, 1] exData exWhite exDark (some 2) 1 0 0 := by
  have e1 : normalizeSeq [[0], [1]] exData exWhite exDark (some 2) 1 0 0 = 1 := by
    show normalize [1] (normalize [0] exData exWhite exDark (some 2)) exWhite exDark (some 2) 1 0 0 = 1
    simp only [normalize, divPhase, updateProj, List.foldl_cons, List.foldl_nil,
      exData, exWhite, exDark]
    norm_num
  have e2 : normalize [0, 1] exData exWhite exDark (some 2) 1 0 0 = 2 := by
    simp only [normalize, divPhase, updateProj, List.foldl_cons, List.foldl_nil,
      exData, exWhite, exDark]
    norm_num
  exact ⟨by decide, e1, e2, by rw [e1, e2]; norm_num⟩

lemma normalizeSeq_none_char (parts : List (List Nat)) (white dark : Img) (m i j : Nat) :
    ∀ data : Vol, parts.flatten.Nodup →
      normalizeSeq parts data white dark none m i j
        = if m ∈ parts.flatten then (data m i j - dark i j) / (white i j - dark i j)
          else data m i j := by
  induction parts with
  | nil =>
    intro data _
    simp [normalizeSeq]
  | cons p ps ih =>
    intro data h
    have hflat : (p ++ ps.flatten).Nodup := by
      simpa [List.flatten_cons] using h
    obtain ⟨hp, hps, hdisj⟩ := List.nodup_append.mp hflat
    show normalizeSeq ps (normalize p data white dark none) white dark none m i j = _
    rw [ih (normalize p data white dark none) hps]
    by_cases hmem : m ∈ ps.flatten
    · have hmp : m ∉ p := fun hin => hdisj hin hmem
      rw [if_pos hmem, if_pos (by simp [List.flatten_cons, List.mem_append, hmem])]
      show (divPhase p data white dark m i j - dark i j) / (white i j - dark i j) = _
      rw [divPhase_not_mem hmp data white dark i j]
    · rw [if_neg hmem]
      by_cases hmp : m ∈ p
      · rw [if_pos (by simp [List.flatten_cons, List.mem_append, hmp])]
        exact divPhase_mem hp hmp data white dark i j
      · rw [if_neg (by simp [List.flatten_cons, List.mem_append, hmp, hmem])]
        exact divPhase_not_mem hmp data white dark i j

/-- C3 (amended): with `cutoff = None`, running the worker once per
partition, sequentially and in any order, over partitions that are
pairwise disjoint and cover `[0, num_projections)` (expressed as: their
concatenation is a permutation of `range num_projections`), produces the
same final volume as one run over the whole index range.  (With a cutoff
this fails — see the counterexample — because each run's clamp touches
the whole shared array, including the still-raw projections of the
partitions processed later.) -/
theorem normalizeSeq_eq_whole (parts : List (List Nat)) (nproj : Nat) (data : Vol)
    (white dark : Img) (hperm : parts.flatten.Perm (List.range nproj)) :
    normalizeSeq parts data white dark none
      = normalize (List.range nproj) data white dark none := by
  have hnd : parts.flatten.Nodup := hperm.nodup_iff.mpr (List.nodup_range nproj)
  funext m i j
  rw [normalizeSeq_none_char parts white dark m i j data hnd]
  show _ = divPhase (List.range nproj) data white dark m i j
  by_cases hmem : m ∈ List.range nproj
  · rw [if_pos (hperm.mem_iff.mpr hmem),
      divPhase_mem (List.nodup_range nproj) hmem data white dark i j]
  · rw [if_neg (fun hin => hmem (hperm.mem_iff.mp hin)),
      divPhase_not_mem hmem data white dark i j]

/-- Witness for the amended C3: partitions `[0]` and `[1]` covering
`[0, 2)`, on the example volume, with no cutoff. -/
theorem normalizeSeq_eq_whole_witness :
    ([[0], [1]] : List (List Nat)).flatten.Perm (List.range 2)
    ∧ normalizeSeq [[0], [1]] exData exWhite exDark none
        = normalize (List.range 2) exData exWhite exDark none := by
  exact ⟨by decide, normalizeSeq_eq_whole [[0], [1]] 2 exData exWhite exDark (by decide)⟩

/-! ## optimize_center.py

The locator works on one reconstructed slice.  The external
collaborators are passed as functions, exactly as the spec treats them:
`reconstruct` abstracts `Gridrec.reconstruct` applied to the fixed
projection stack, angles and slice (a candidate center ↦ the
reconstructed `n × n` image, `n = data.shape[2]`); `gaussian` abstracts
`scipy.ndimage.filters.gaussian_filter(·, sigma=2.)`; `minimize`
abstracts `scipy.optimize.minimize(..., method='Nelder-Mead', tol=tol)`.
`rho` is the `ratio` argument of the source (mask radius / image edge).
-/

/-- The circular mask of the source:

    rad = data.shape[2]/2
    y, x = np.ogrid[-rad:rad, -rad:rad]
    msk = x*x + y*y > ratio*ratio*rad*rad
    recon.data_recon[0, msk] = 0

(Python 2 integer division, so `rad = n / 2` with `Nat` division.) -/
def applyMask (rad : Nat) (rho : ℚ) (img : Img) : Img :=
  fun i j =>
    if ((i : ℚ) - (rad : ℚ)) * ((i : ℚ) - (rad : ℚ))
        + ((j : ℚ) - (rad : ℚ)) * ((j : ℚ) - (rad : ℚ)) > rho * rho * (rad : ℚ) * (rad : ℚ)
    then 0 else img i j

/-- The `if mask is True:` guard around the circular mask, shared by the
initialization phase of `optimize_center` and by `_costFunc`. -/
def maskStep (mask : Bool) (rad : Nat) (rho : ℚ) (img : Img) : Img :=
  if mask then applyMask rad rho img else img

/-- Row-major flattening of an `n × n` image (the order `np.min`,
`np.max` and `np.histogram` traverse the array in). -/
def flattenImg (n : Nat) (img : Img) : List ℚ :=
  (List.range n).flatMap fun i => (List.range n).map fun j => img i j

/-- Embeds `np.min` over a flattened array (the arrays in use are nonempty). -/
def arrMin : List ℚ → ℚ
  | [] => 0
  | x :: xs => xs.foldl min x

/-- Embeds `np.max` over a flattened array (the arrays in use are nonempty). -/
def arrMax : List ℚ → ℚ
  | [] => 0
  | x :: xs => xs.foldl max x

/-- The `hist_min` adjustment: `if hist_min < 0: hist_min = 2 * hist_min
elif hist_min >= 0: hist_min = 0.5 * hist_min`. -/
def histMinOf (v : ℚ) : ℚ := if v < 0 then 2 * v else (1 / 2) * v

/-- The `hist_max` adjustment: `if hist_max < 0: hist_max = 0.5 * hist_max
elif hist_max >= 0: hist_max = 2 * hist_max`. -/
def histMaxOf (v : ℚ) : ℚ := if v < 0 then (1 / 2) * v else 2 * v

/-- The initial (possibly masked) reconstruction made by
`optimize_center` before the search starts. -/
def initImage (reconstruct : ℚ → Img) (center_init : ℚ) (mask : Bool) (rad : Nat)
    (rho : ℚ) : Img :=
  maskStep mask rad rho (reconstruct center_init)

/-- The `[hist_min, hist_max]` pair computed once from the initial
reconstruction's pixel extrema. -/
def runHistRange (reconstruct : ℚ → Img) (n : Nat) (center_init : ℚ) (mask : Bool)
    (rho : ℚ) : ℚ × ℚ :=
  (histMinOf (arrMin (flattenImg n (initImage reconstruct center_init mask (n / 2) rho))),
   histMaxOf (arrMax (flattenImg n (initImage reconstruct center_init mask (n / 2) rho))))

/-- Membership of a value in bucket `k` of a `bins`-bucket histogram over
`[lo, hi]`, with `np.histogram` semantics: buckets are half-open except
the last, which also contains the right endpoint. -/
def inBin (lo hi : ℚ) (bins k : Nat) (v : ℚ) : Bool :=
  decide (lo + (k : ℚ) * ((hi - lo) / (bins : ℚ)) ≤ v)
    && (if k + 1 = bins then decide (v ≤ hi)
        else decide (v < lo + ((k : ℚ) + 1) * ((hi - lo) / (bins : ℚ))))

/-- The bucket counts of `np.histogram(values, bins, range=[lo, hi])`. -/
def histCounts (lo hi : ℚ) (bins : Nat) (vals : List ℚ) : List Nat :=
  (List.range bins).map fun k => (vals.filter fun v => inBin lo hi bins k v).length

/-- The probability attached to bucket `k` in `_costFunc`: bucket count
divided by the pixel count of the reconstructed image, plus the `1e-12`
floor. -/
def bucketProb (n : Nat) (lo hi : ℚ) (vals : List ℚ) (k : Nat) : ℚ :=
  (((vals.filter fun v => inBin lo hi 64 k v).length : ℚ)) / ((n : ℚ) * (n : ℚ))
    + 1 / 10 ^ 12

/-- The cost function `_costFunc` of the source: reconstruct at the candidate center, mask
if requested, Gaussian-smooth, histogram into 64 buckets over the frozen
`[lo, hi]` range, renormalize with the `1e-12` floor and return
`-np.dot(histr, np.log2(histr))`. -/
noncomputable def costFunc (reconstruct : ℚ → Img) (gaussian : Img → Img) (n : Nat)
    (mask : Bool) (rho lo hi center : ℚ) : ℝ :=
  -(List.map (fun p => (p : ℝ) * Real.logb 2 (p : ℝ))
      (List.map (fun cnt : Nat => ((cnt : ℚ) / ((n : ℚ) * (n : ℚ)) + 1 / 10 ^ 12 : ℚ))
        (histCounts lo hi 64
          (flattenImg n (gaussian (maskStep mask (n / 2) rho (reconstruct center))))))).sum

/-- What `scipy.optimize.minimize` hands back: the solution point and a
convergence flag (`OptimizeResult.x` / `OptimizeResult.success`). -/
structure MinRes where
  x : ℚ
  success : Bool

/-- The locator `optimize_center` of the source: build the initial (possibly masked)
reconstruction, freeze `[hist_min, hist_max]` from its extrema, run the
external minimizer on the cost function and return `res.x` — nothing
else of the minimizer's result survives. -/
noncomputable def optimize_center (reconstruct : ℚ → Img) (gaussian : Img → Img)
    (minimize : (ℚ → ℝ) → ℚ → ℚ → MinRes) (n : Nat) (center_init tol : ℚ)
    (mask : Bool) (rho : ℚ) : ℚ :=
  let hr := runHistRange reconstruct n center_init mask rho
  (minimize (fun c => costFunc reconstruct gaussian n mask rho hr.1 hr.2 c)
    center_init tol).x

/-- The (candidate, score) pairs produced when the minimizer evaluates
the objective on a sequence of candidate centers. -/
noncomputable def evalTrace (reconstruct : ℚ → Img) (gaussian : Img → Img) (n : Nat)
    (mask : Bool) (rho lo hi : ℚ) (cands : List ℚ) : List (ℚ × ℝ) :=
  cands.map fun c => (c, costFunc reconstruct gaussian n mask rho lo hi c)

/-! ### Theorems about the center locator -/

lemma sum_map_range_real (f : Nat → ℝ) (n : Nat) :
    ((List.range n).map f).sum = Finset.sum (Finset.range n) f := by
  induction n with
  | zero => simp
  | succ k ih =>
    rw [List.range_succ, List.map_append, List.sum_append, Finset.sum_range_succ, ih]
    simp

/-- C4: the histogram range is derived from the initial (possibly
masked) reconstruction's extrema by the rule: a negative minimum is
doubled, a non-negative minimum is halved; a negative maximum is halved,
a non-negative maximum is doubled. -/
theorem histRange_rule (reconstruct : ℚ → Img) (n : Nat) (center_init : ℚ) (mask : Bool)
    (rho : ℚ) :
    (arrMin (flattenImg n (initImage reconstruct center_init mask (n / 2) rho)) < 0 →
      (runHistRange reconstruct n center_init mask rho).1
        = 2 * arrMin (flattenImg n (initImage reconstruct center_init mask (n / 2) rho)))
    ∧ (0 ≤ arrMin (flattenImg n (initImage reconstruct center_init mask (n / 2) rho)) →
      (runHistRange reconstruct n center_init mask rho).1
        = (1 / 2) * arrMin (flattenImg n (initImage reconstruct center_init mask (n / 2) rho)))
    ∧ (arrMax (flattenImg n (initImage reconstruct center_init mask (n / 2) rho)) < 0 →
      (runHistRange reconstruct n center_init mask rho).2
        = (1 / 2) * arrMax (flattenImg n (initImage reconstruct center_init mask (n / 2) rho)))
    ∧ (0 ≤ arrMax (flattenImg n (initImage reconstruct center_init mask (n / 2) rho)) →
      (runHistRange reconstruct n center_init mask rho).2
        = 2 * arrMax (flattenImg n (initImage reconstruct center_init mask (n / 2) rho))) := by
  refine ⟨fun h => ?_, fun h => ?_, fun h => ?_, fun h => ?_⟩
  · show histMinOf _ = _
    rw [histMinOf, if_pos h]
  · show histMinOf _ = _
    rw [histMinOf, if_neg (not_lt.mpr h)]
  · show histMaxOf _ = _
    rw [histMaxOf, if_pos h]
  · show histMaxOf _ = _
    rw [histMaxOf, if_neg (not_lt.mpr h)]

/-- Example initial reconstruction (2 × 2, unmasked): pixel values
`-4`, `10`, `0`, `0`, so min `-4` and max `10`. -/
def exRecon4 : ℚ → Img := fun _ i j =>
  if i = 0 ∧ j = 0 then -4 else if i = 0 ∧ j = 1 then 10 else 0

/-- Witness for C4: an initial reconstruction with min `-4` and max `10`
yields the frozen range `[-8, 20]`. -/
theorem histRange_rule_witness :
    arrMin (flattenImg 2 (initImage exRecon4 0 false (2 / 2) 1)) = -4
    ∧ arrMax (flattenImg 2 (initImage exRecon4 0 false (2 / 2) 1)) = 10
    ∧ (runHistRange exRecon4 2 0 false 1).1 = -8
    ∧ (runHistRange exRecon4 2 0 false 1).2 = 20 := by
  have h := histRange_rule exRecon4 2 0 false 1
  have hflat : flattenImg 2 (initImage exRecon4 0 false (2 / 2) 1) = [-4, 10, 0, 0] := by
    decide
  have hmin : arrMin (flattenImg 2 (initImage exRecon4 0 false (2 / 2) 1)) = -4 := by
    rw [hflat]; decide
  have hmax : arrMax (flattenImg 2 (initImage exRecon4 0 false (2 / 2) 1)) = 10 := by
    rw [hflat]; decide
  refine ⟨hmin, hmax, ?_, ?_⟩
  · rw [h.1 (by rw [hmin]; norm_num), hmin]; norm_num
  · rw [h.2.2.2 (by rw [hmax]; norm_num), hmax]; norm_num

/-- C5: the score `_costFunc` returns is exactly
`-Σ_{k<64} p_k · log2 p_k`, where `p_k` is the count of bucket `k` of
the 64-bucket histogram of the Gaussian-smoothed masked reconstruction
over the frozen `[lo, hi]` range, divided by the pixel count `n·n` of
the reconstructed image, plus the `1e-12` floor. -/
theorem costFunc_is_neg_entropy (reconstruct : ℚ → Img) (gaussian : Img → Img) (n : Nat)
    (mask : Bool) (rho lo hi center : ℚ) :
    costFunc reconstruct gaussian n mask rho lo hi center
      = -(Finset.sum (Finset.range 64) fun k =>
          ((bucketProb n lo hi
              (flattenImg n (gaussian (maskStep mask (n / 2) rho (reconstruct center)))) k : ℚ) : ℝ)
            * Real.logb 2
              ((bucketProb n lo hi
                (flattenImg n (gaussian (maskStep mask (n / 2) rho (reconstruct center)))) k : ℚ) : ℝ)) := by
  unfold costFunc histCounts
  rw [List.map_map, List.map_map]
  rw [sum_map_range_real]
  rfl

/-- C6: the circular mask zeroes exactly the pixels strictly outside the
circle of radius `ratio · rad` (with `rad = n / 2`, half the image edge)
around the image center, and leaves every pixel inside or on the circle
unchanged.  `maskStep` is the masking step used both by the
initialization phase (`initImage`) and by the cost function
(`costFunc`). -/
theorem mask_semantics (n rad : Nat) (hn : n = 2 * rad) (rho : ℚ) (img : Img) (i j : Nat) :
    maskStep true (n / 2) rho img i j
      = if ((i : ℚ) - (rad : ℚ)) ^ 2 + ((j : ℚ) - (rad : ℚ)) ^ 2 > (rho * (rad : ℚ)) ^ 2
        then 0 else img i j := by
  subst hn
  have hrad : 2 * rad / 2 = rad := by omega
  rw [hrad]
  show applyMask rad rho img i j = _
  unfold applyMask
  split_ifs with h1 h2 h2
  · rfl
  · exfalso; apply h2; ring_nf; ring_nf at h1; linarith
  · exfalso; apply h1; ring_nf; ring_nf at h2; linarith
  · rfl

/-- Constant example image, value 7 everywhere. -/
def exImg7 : Img := fun _ _ => 7

/-- Witness for C6: edge 2, radius 1, ratio 1: the corner pixel (0,0) is
outside the circle and is zeroed; the pixel (1,1) is the center and is
kept. -/
theorem mask_semantics_witness :
    2 = 2 * 1
    ∧ maskStep true (2 / 2) 1 exImg7 0 0 = 0
    ∧ maskStep true (2 / 2) 1 exImg7 1 1 = 7 := by
  refine ⟨rfl, ?_, ?_⟩
  · rw [mask_semantics 2 1 rfl 1 exImg7 0 0]
    norm_num
  · rw [mask_semantics 2 1 rfl 1 exImg7 1 1]
    norm_num [exImg7]

/-- C7: `hist_min` / `hist_max` are computed once, from the initial
reconstruction only (`runHistRange`), and every objective evaluation
inside the run uses those same two unmodified values: the objective
handed to the minimizer is `costFunc` at exactly that frozen pair, and
every (candidate, score) pair of any evaluation trace of that objective
scores its candidate against the same frozen pair. -/
theorem histRange_frozen (reconstruct : ℚ → Img) (gaussian : Img → Img)
    (minimize : (ℚ → ℝ) → ℚ → ℚ → MinRes) (n : Nat) (center_init tol : ℚ) (mask : Bool)
    (rho : ℚ) (cands : List ℚ) :
    (optimize_center reconstruct gaussian minimize n center_init tol mask rho
      = (minimize (fun c => costFunc reconstruct gaussian n mask rho
          (runHistRange reconstruct n center_init mask rho).1
          (runHistRange reconstruct n center_init mask rho).2 c) center_init tol).x)
    ∧ ∀ p ∈ evalTrace reconstruct gaussian n mask rho
          (runHistRange reconstruct n center_init mask rho).1
          (runHistRange reconstruct n center_init mask rho).2 cands,
        p.2 = costFunc reconstruct gaussian n mask rho
          (runHistRange reconstruct n center_init mask rho).1
          (runHistRange reconstruct n center_init mask rho).2 p.1 := by
  refine ⟨rfl, ?_⟩
  intro p hp
  simp only [evalTrace, List.mem_map] at hp
  obtain ⟨c, _, rfl⟩ := hp
  rfl

/-- A minimizer stub that just echoes the initial guess, reporting
convergence. -/
def exMinEcho : (ℚ → ℝ) → ℚ → ℚ → MinRes := fun _ c _ => ⟨c, true⟩

/-- Witness for C7: a one-candidate trace of the objective of a concrete
run scores that candidate against the run's frozen range. -/
theorem histRange_frozen_witness :
    optimize_center exRecon4 id exMinEcho 2 0 1 false 1
      = (exMinEcho (fun c => costFunc exRecon4 id 2 false 1
          (runHistRange exRecon4 2 0 false 1).1
          (runHistRange exRecon4 2 0 false 1).2 c) 0 1).x
    ∧ ((3 : ℚ), costFunc exRecon4 id 2 false 1
          (runHistRange exRecon4 2 0 false 1).1
          (runHistRange exRecon4 2 0 false 1).2 3)
        ∈ evalTrace exRecon4 id 2 false 1
          (runHistRange exRecon4 2 0 false 1).1
          (runHistRange exRecon4 2 0 false 1).2 [3]
    ∧ costFunc exRecon4 id 2 false 1
          (runHistRange exRecon4 2 0 false 1).1
          (runHistRange exRecon4 2 0 false 1).2 3
        = costFunc exRecon4 id 2 false 1
          (runHistRange exRecon4 2 0 false 1).1
          (runHistRange exRecon4 2 0 false 1).2 3 := by
  have h := histRange_frozen exRecon4 id exMinEcho 2 0 1 false 1 [3]
  have hmem : ((3 : ℚ), costFunc exRecon4 id 2 false 1
      (runHistRange exRecon4 2 0 false 1).1
      (runHistRange exRecon4 2 0 false 1).2 3)
      ∈ evalTrace exRecon4 id 2 false 1
        (runHistRange exRecon4 2 0 false 1).1
        (runHistRange exRecon4 2 0 false 1).2 [3] := by
    simp [evalTrace]
  exact ⟨h.1, hmem, h.2 _ hmem⟩

/-- Constant example reconstructor: every pixel of every reconstruction
is 3. -/
def exRecon3 : ℚ → Img := fun _ _ _ => 3

/-- Counterexample to C8: a call with non-positive tolerance (`-1`) and
mask ratio `0` (outside `(0, 1]`) does not fail: it performs the initial
reconstruction, silently masks every off-center pixel of it to zero
(pixel `(0,1)` of the constant-3 reconstruction becomes 0), and returns
the minimizer's result as if the configuration were valid. -/
theorem invalid_config_counterexample :
    optimize_center exRecon3 id exMinEcho 2 1 (-1) true 0 = 1
    ∧ initImage exRecon3 1 true (2 / 2) 0 0 1 = 0
    ∧ exRecon3 1 0 1 = 3 := by
  refine ⟨rfl, ?_, rfl⟩
  show applyMask 1 0 (exRecon3 1) 0 1 = 0
  unfold applyMask exRecon3
  norm_num

/-- C8 (amended): `optimize_center` performs no configuration
validation.  Every call — including non-positive tolerance and mask
ratio outside `(0, 1]` — reconstructs, freezes the histogram range and
returns the minimizer's bare result; with mask on and ratio `0` the
circular mask silently zeroes every pixel of the initial reconstruction
except the exact center pixel `(n/2, n/2)`. -/
theorem optimize_center_no_validation (reconstruct : ℚ → Img) (gaussian : Img → Img)
    (minimize : (ℚ → ℝ) → ℚ → ℚ → MinRes) (n : Nat) (center_init tol : ℚ) (mask : Bool)
    (rho : ℚ) :
    (optimize_center reconstruct gaussian minimize n center_init tol mask rho
      = (minimize (fun c => costFunc reconstruct gaussian n mask rho
          (runHistRange reconstruct n center_init mask rho).1
          (runHistRange reconstruct n center_init mask rho).2 c) center_init tol).x)
    ∧ (rho = 0 → ∀ i j : Nat,
        initImage reconstruct center_init true (n / 2) rho i j
          = if i = n / 2 ∧ j = n / 2 then reconstruct center_init i j else 0) := by
  refine ⟨rfl, ?_⟩
  intro hrho i j
  subst hrho
  show applyMask (n / 2) 0 (reconstruct center_init) i j = _
  unfold applyMask
  have h0 : (0 : ℚ) * 0 * ((n / 2 : Nat) : ℚ) * ((n / 2 : Nat) : ℚ) = 0 := by ring
  rw [h0]
  by_cases hij : i = n / 2 ∧ j = n / 2
  · obtain ⟨hi, hj⟩ := hij
    subst hi
    subst hj
    rw [if_neg (by norm_num), if_pos ⟨rfl, rfl⟩]
  · have hpos : ((i : ℚ) - ((n / 2 : Nat) : ℚ)) * ((i : ℚ) - ((n / 2 : Nat) : ℚ))
        + ((j : ℚ) - ((n / 2 : Nat) : ℚ)) * ((j : ℚ) - ((n / 2 : Nat) : ℚ)) > 0 := by
      rcases Decidable.not_and_iff_or_not.mp hij with h | h
      · have hx : ((i : ℚ) - ((n / 2 : Nat) : ℚ)) ≠ 0 :=
          sub_ne_zero.mpr (fun he => h (Nat.cast_injective he))
        have h1 := mul_self_pos.mpr hx
        have h2 := mul_self_nonneg ((j : ℚ) - ((n / 2 : Nat) : ℚ))
        linarith
      · have hx : ((j : ℚ) - ((n / 2 : Nat) : ℚ)) ≠ 0 :=
          sub_ne_zero.mpr (fun he => h (Nat.cast_injective he))
        have h1 := mul_self_pos.mpr hx
        have h2 := mul_self_nonneg ((i : ℚ) - ((n / 2 : Nat) : ℚ))
        linarith
    rw [if_pos hpos, if_neg hij]

/-- Witness for the amended C8 at a concrete invalid configuration. -/
theorem optimize_center_no_validation_witness :
    optimize_center exRecon3 id exMinEcho 2 1 (-1) true 0
      = (exMinEcho (fun c => costFunc exRecon3 id 2 true 0
          (runHistRange exRecon3 2 1 true 0).1
          (runHistRange exRecon3 2 1 true 0).2 c) 1 (-1)).x
    ∧ initImage exRecon3 1 true (2 / 2) 0 1 1 = exRecon3 1 1 1
    ∧ initImage exRecon3 1 true (2 / 2) 0 0 1 = 0 := by
  have h := optimize_center_no_validation exRecon3 id exMinEcho 2 1 (-1) true 0
  refine ⟨h.1, ?_, ?_⟩
  · rw [h.2 rfl 1 1]; norm_num
  · rw [h.2 rfl 0 1]; norm_num

/-- A minimizer stub that reports convergence and returns 5. -/
def exMinConv : (ℚ → ℝ) → ℚ → ℚ → MinRes := fun _ _ _ => ⟨5, true⟩

/-- A minimizer stub that reports non-convergence (exhausted budget) and
returns 5. -/
def exMinFail : (ℚ → ℝ) → ℚ → ℚ → MinRes := fun _ _ _ => ⟨5, false⟩

/-- Counterexample to C9: the source returns the bare `res.x` and
discards `res.success`, so a run whose minimizer exhausted its budget
(`success = false`) is indistinguishable to the caller from a converged
run: both return exactly `5`, with no `NotConverged` tag anywhere in the
result. -/
theorem notconverged_tag_counterexample :
    (exMinFail (fun _ => (0 : ℝ)) 0 1).success = false
    ∧ (exMinConv (fun _ => (0 : ℝ)) 0 1).success = true
    ∧ optimize_center exRecon3 id exMinFail 2 0 1 false 1 = 5
    ∧ optimize_center exRecon3 id exMinConv 2 0 1 false 1 = 5
    ∧ optimize_center exRecon3 id exMinFail 2 0 1 false 1
        = optimize_center exRecon3 id exMinConv 2 0 1 false 1 := by
  exact ⟨rfl, rfl, rfl, rfl, rfl⟩

/-- C9 (amended): when the minimizer exhausts its budget,
`optimize_center` does not raise — it still returns the minimizer's
final candidate `res.x` — but the result is a bare scalar with no
convergence status: two minimizers returning the same point are
indistinguishable to the caller regardless of their `success` flags. -/
theorem optimize_center_result_untagged (reconstruct : ℚ → Img) (gaussian : Img → Img)
    (mini1 mini2 : (ℚ → ℝ) → ℚ → ℚ → MinRes) (n : Nat) (center_init tol : ℚ)
    (mask : Bool) (rho : ℚ)
    (h : ∀ f : ℚ → ℝ, (mini1 f center_init tol).x = (mini2 f center_init tol).x) :
    (optimize_center reconstruct gaussian mini1 n center_init tol mask rho
      = (mini1 (fun c => costFunc reconstruct gaussian n mask rho
          (runHistRange reconstruct n center_init mask rho).1
          (runHistRange reconstruct n center_init mask rho).2 c) center_init tol).x)
    ∧ optimize_center reconstruct gaussian mini1 n center_init tol mask rho
        = optimize_center reconstruct gaussian mini2 n center_init tol mask rho := by
  exact ⟨rfl, h _⟩

/-- Witness for the amended C9: the converged and non-converged stub
minimizers agree on `x`, and the two runs return the same center. -/
theorem optimize_center_result_untagged_witness :
    (∀ f : ℚ → ℝ, (exMinFail f 0 1).x = (exMinConv f 0 1).x)
    ∧ optimize_center exRecon3 id exMinFail 2 0 1 false 1
        = optimize_center exRecon3 id exMinConv 2 0 1 false 1 := by
  refine ⟨fun f => rfl, ?_⟩
  exact (optimize_center_result_untagged exRecon3 id exMinFail exMinConv 2 0 1 false 1
    (fun f => rfl)).2

/-- C10: when the mask flag is off, the `ratio` argument is dead: any two
ratio values produce the same returned center, the same frozen histogram
range, the same score at every candidate, and the same evaluation
trace. -/
theorem mask_off_ratio_irrelevant (reconstruct : ℚ → Img) (gaussian : Img → Img)
    (minimize : (ℚ → ℝ) → ℚ → ℚ → MinRes) (n : Nat) (center_init tol : ℚ)
    (rho1 rho2 lo hi : ℚ) (cands : List ℚ) :
    optimize_center reconstruct gaussian minimize n center_init tol false rho1
      = optimize_center reconstruct gaussian minimize n center_init tol false rho2
    ∧ runHistRange reconstruct n center_init false rho1
        = runHistRange reconstruct n center_init false rho2
    ∧ (∀ c : ℚ, costFunc reconstruct gaussian n false rho1 lo hi c
        = costFunc reconstruct gaussian n false rho2 lo hi c)
    ∧ evalTrace reconstruct gaussian n false rho1 lo hi cands
        = evalTrace reconstruct gaussian n false rho2 lo hi cands := by
  exact ⟨rfl, rfl, fun c => rfl, rfl⟩
